import Mathlib

/-!
# Verification of the `evm-rusty` VM and transaction executor

A shallow embedding of the repository's core (`src/evm/operation.rs`,
`src/evm/bytecode_parser.rs`, `src/evm/evm.rs`, `src/evm/executor.rs`,
`src/block/account.rs`) together with proofs settling the frozen claims.

Modelling conventions:
* Rust `u8`/`u64`/`usize` values and alloy `U256`/`Address` words are
  modelled as `Nat`; an operation of the source that can wrap reduces
  modulo `2 ^ 256` explicitly (`U256_MOD`).  `U256::to::<usize>()`
  panics when the value exceeds `usize`, which the embedding mirrors
  through `toUsize`.
* A Rust `panic!` (unimplemented opcode arm, out-of-bounds slice index,
  `usize` underflow) is modelled as the error `VMError.Panic`.  The
  panic message strings of the source are not reproduced.
* `HashMap<K, V>` is modelled as an association list with
  insert-replacing-the-existing-entry semantics (`mapInsert`); maps are
  only ever built through these operations, so keys stay unique and the
  iteration order used by `revert_storage` is immaterial (each key
  occurs in the journal at most once and distinct keys commute).
* ECDSA recovery and keccak hashing are external crypto primitives: a
  `Transaction` carries the result of `get_sender_address()` as the
  field `sender` and of `verify_signature()` as the field `sig_valid`;
  the contract-creation path takes the keccak-based address derivation
  as a function parameter.
-/

namespace EvmRusty

/-- `2 ^ 256`, the modulus of the 256-bit machine words. -/
def U256_MOD : Nat := 2 ^ 256

/-! ## Association-list model of `HashMap` -/

/-- `HashMap::get`. -/
def mapLookup {α : Type} : List (Nat × α) → Nat → Option α
  | [], _ => none
  | (k, v) :: rest, key => if k = key then some v else mapLookup rest key

/-- `HashMap::insert` (replaces the entry of an existing key). -/
def mapInsert {α : Type} : List (Nat × α) → Nat → α → List (Nat × α)
  | [], key, val => [(key, val)]
  | (k, v) :: rest, key, val =>
    if k = key then (key, val) :: rest else (k, v) :: mapInsert rest key val

/-- `HashMap::remove` (with unique keys, dropping the first match). -/
def mapRemove {α : Type} : List (Nat × α) → Nat → List (Nat × α)
  | [], _ => []
  | (k, v) :: rest, key => if k = key then rest else (k, v) :: mapRemove rest key

theorem mapLookup_mapInsert_self {α : Type} (m : List (Nat × α)) (k : Nat) (v : α) :
    mapLookup (mapInsert m k v) k = some v := by
  induction m with
  | nil => simp [mapInsert, mapLookup]
  | cons hd tl ih =>
    obtain ⟨k', v'⟩ := hd
    by_cases h : k' = k
    · simp [mapInsert, h, mapLookup]
    · simp [mapInsert, h, mapLookup, ih]

theorem mapLookup_mapInsert_ne {α : Type} (m : List (Nat × α)) (k k' : Nat) (v : α)
    (h : k' ≠ k) : mapLookup (mapInsert m k v) k' = mapLookup m k' := by
  have h' : ¬ k = k' := fun hh => h hh.symm
  induction m with
  | nil => simp [mapInsert, mapLookup, h']
  | cons hd tl ih =>
    obtain ⟨k0, v0⟩ := hd
    by_cases h0 : k0 = k
    · subst h0
      simp [mapInsert, mapLookup, h']
    · simp [mapInsert, h0, mapLookup, ih]

/-! ## Operation set (`src/evm/operation.rs`)

The 32 `Push1(U256) … Push32(U256)` variants are represented as a single
constructor `Push width value` with `width ∈ 1..32`; likewise
`Swap1 … Swap16` as `Swap n` and `Log0 … Log4` as `Log n`.  The source
treats every member of each family identically in all the functions
modelled here, so the collapsed representation is isomorphic.  `Push0`
is the extra no-immediate variant matched by `VM::process_operation`. -/

inductive Operation where
  | Stop | Add | Mul | Sub | Div | SDiv | Mod | SMod | AddMod | MulMod | Exp | SignExtend
  | Lt | Gt | Slt | Sgt | Eq | IsZero | And | Or | Xor | Not | Byte | Shl | Shr | Sar
  | Address | Balance | Origin | Caller | CallValue | CallDataLoad | CallDataSize
  | CallDataCopy | CodeSize | CodeCopy | GasPrice | ExtCodeSize | ExtCodeCopy
  | ReturnDataSize | ReturnDataCopy | ExtCodeHash
  | BlockHash | Coinbase | Timestamp | Number | Difficulty | GasLimit | ChainId
  | SelfBalance | BaseFee
  | Pop | MLoad | MStore | MStore8 | SLoad | SStore | Jump | JumpI | PC | MSize | Gas
  | JumpDest
  | Push0
  | Push (width : Nat) (value : Nat)
  | Dup (n : Nat)
  | Swap (n : Nat)
  | Log (n : Nat)
  | Create | Call | CallCode | Return | DelegateCall | Create2 | StaticCall | Revert
  | Invalid | SelfDestruct

/-- `GasCost` of `operation.rs`. -/
structure GasCost where
  base : Nat
  dynamic_multiplier : Nat
deriving DecidableEq

/-- `StackReq` of `operation.rs`. -/
structure StackReq where
  min_stack_height : Nat
  stack_inputs : Nat
  stack_outputs : Nat
deriving DecidableEq

/-- `Operation::gas_cost`.  Arms in source order; the final arm is the
`_ => GasCost { base: 3, dynamic_multiplier: 0 }` default. -/
def Operation.gas_cost : Operation → GasCost
  | .Stop | .Return => ⟨0, 0⟩
  | .Add | .Sub | .Not | .Lt | .Gt | .Slt | .Sgt | .Eq | .IsZero | .And | .Or | .Xor
  | .Pop => ⟨3, 0⟩
  | .Mul | .Div | .SDiv | .Mod | .SMod | .SignExtend => ⟨5, 0⟩
  | .AddMod | .MulMod => ⟨8, 0⟩
  | .SLoad => ⟨800, 0⟩
  | .SStore => ⟨5000, 15000⟩
  | .MLoad | .MStore => ⟨3, 3⟩
  | .Push _ _ => ⟨3, 0⟩
  | .Create => ⟨32000, 200⟩
  | .Call => ⟨700, 9000⟩
  | .SelfDestruct => ⟨5000, 25000⟩
  | _ => ⟨3, 0⟩

/-- `Operation::stack_req`.  The `Dup(n)` arm carries the source's
`1 ≤ n ≤ 16` guard; everything else not listed falls to the
conservative `{1, 1, 1}` default. -/
def Operation.stack_req : Operation → StackReq
  | .Push _ _ => ⟨0, 0, 1⟩
  | .Add | .Sub | .Mul | .Div => ⟨2, 2, 1⟩
  | .Pop => ⟨1, 1, 0⟩
  | .Dup n => if 1 ≤ n ∧ n ≤ 16 then ⟨n, 0, 1⟩ else ⟨1, 1, 1⟩
  | _ => ⟨1, 1, 1⟩

/-- `Operation::from_byte`.  The source is a Rust `match` over disjoint
byte patterns; since the patterns are disjoint, the order of the
branches below (ranges first, then the single-byte arms) is
behaviourally identical to the source.  Error messages are abbreviated. -/
def Operation.from_byte (byte : Nat) (data : Option Nat) : Except String Operation :=
  if 0x60 ≤ byte ∧ byte ≤ 0x7f then
    match data with
    | some value =>
      if byte - 0x60 ≤ 31 then .ok (.Push (byte - 0x60 + 1) value)
      else .error "Invalid push operation"
    | none => .error "Push operation requires data"
  else if 0x80 ≤ byte ∧ byte ≤ 0x8f then .ok (.Dup (byte - 0x80 + 1))
  else if byte = 0x90 then .ok (.Swap 1)
  else if byte = 0x91 then .ok (.Swap 2)
  else if byte = 0x9f then .ok (.Swap 16)
  else if byte = 0x00 then .ok .Stop
  else if byte = 0x01 then .ok .Add
  else if byte = 0x02 then .ok .Mul
  else if byte = 0x03 then .ok .Sub
  else if byte = 0x04 then .ok .Div
  else if byte = 0x05 then .ok .SDiv
  else if byte = 0x06 then .ok .Mod
  else if byte = 0x07 then .ok .SMod
  else if byte = 0x08 then .ok .AddMod
  else if byte = 0x09 then .ok .MulMod
  else if byte = 0x0a then .ok .Exp
  else if byte = 0x0b then .ok .SignExtend
  else if byte = 0x10 then .ok .Lt
  else if byte = 0x11 then .ok .Gt
  else if byte = 0x12 then .ok .Slt
  else if byte = 0x13 then .ok .Sgt
  else if byte = 0x14 then .ok .Eq
  else if byte = 0x15 then .ok .IsZero
  else if byte = 0x16 then .ok .And
  else if byte = 0x17 then .ok .Or
  else if byte = 0x18 then .ok .Xor
  else if byte = 0x19 then .ok .Not
  else if byte = 0x1a then .ok .Byte
  else if byte = 0x1b then .ok .Shl
  else if byte = 0x1c then .ok .Shr
  else if byte = 0x1d then .ok .Sar
  else if byte = 0x30 then .ok .Address
  else if byte = 0x31 then .ok .Balance
  else if byte = 0x32 then .ok .Origin
  else if byte = 0x33 then .ok .Caller
  else if byte = 0x34 then .ok .CallValue
  else if byte = 0x35 then .ok .CallDataLoad
  else if byte = 0x36 then .ok .CallDataSize
  else if byte = 0x37 then .ok .CallDataCopy
  else if byte = 0x38 then .ok .CodeSize
  else if byte = 0x39 then .ok .CodeCopy
  else if byte = 0x3a then .ok .GasPrice
  else if byte = 0x3b then .ok .ExtCodeSize
  else if byte = 0x3c then .ok .ExtCodeCopy
  else if byte = 0x3d then .ok .ReturnDataSize
  else if byte = 0x3e then .ok .ReturnDataCopy
  else if byte = 0x3f then .ok .ExtCodeHash
  else if byte = 0x40 then .ok .BlockHash
  else if byte = 0x41 then .ok .Coinbase
  else if byte = 0x42 then .ok .Timestamp
  else if byte = 0x43 then .ok .Number
  else if byte = 0x44 then .ok .Difficulty
  else if byte = 0x45 then .ok .GasLimit
  else if byte = 0x46 then .ok .ChainId
  else if byte = 0x47 then .ok .SelfBalance
  else if byte = 0x48 then .ok .BaseFee
  else if byte = 0x50 then .ok .Pop
  else if byte = 0x51 then .ok .MLoad
  else if byte = 0x52 then .ok .MStore
  else if byte = 0x53 then .ok .MStore8
  else if byte = 0x54 then .ok .SLoad
  else if byte = 0x55 then .ok .SStore
  else if byte = 0x56 then .ok .Jump
  else if byte = 0x57 then .ok .JumpI
  else if byte = 0x58 then .ok .PC
  else if byte = 0x59 then .ok .MSize
  else if byte = 0x5a then .ok .Gas
  else if byte = 0x5b then .ok .JumpDest
  else .error "Unknown opcode"

/-! ## Bytecode decoder (`src/evm/bytecode_parser.rs`) -/

inductive ParserError where
  | IncompletePush
  | InvalidOpcode
deriving DecidableEq

/-- `BytecodeParser::next_operation`: the parser state is the pair of the
byte list and the cursor `pc`; the returned `Nat` is the advanced cursor.
The source reads the `bytes_to_read` immediate bytes with the loop
`value = (value << 8) + bytecode[pc + 1 + i]` for `i in 0..bytes_to_read`,
which is exactly a big-endian fold over the slice
`bytecode[pc+1 .. pc+1+bytes_to_read]` (in bounds because of the
preceding length check); `U256` shifts and adds reduce modulo `2^256`. -/
def next_operation (bytecode : List Nat) (pc : Nat) :
    Except ParserError (Option (Operation × Nat)) :=
  if pc ≥ bytecode.length then .ok none
  else
    let opcode := bytecode.getD pc 0
    if opcode = 0xfe then .ok none
    else if 0x60 ≤ opcode ∧ opcode ≤ 0x7f then
      let bytes_to_read := opcode - 0x60 + 1
      if pc + bytes_to_read ≥ bytecode.length then .error .IncompletePush
      else
        let value := ((bytecode.drop (pc + 1)).take bytes_to_read).foldl
          (fun v b => (v * 256 + b) % U256_MOD) 0
        match Operation.from_byte opcode (some value) with
        | .ok op => .ok (some (op, pc + bytes_to_read + 1))
        | .error _ => .error .InvalidOpcode
    else
      match Operation.from_byte opcode none with
      | .ok op => .ok (some (op, pc + 1))
      | .error _ => .error .InvalidOpcode

/-- The loop body of `BytecodeParser::compile`.  `next_operation` always
advances the cursor by at least one when it yields an operation, so
`fuel = bytecode.length + 1` always suffices (used by `compile`); on
exhausted fuel the accumulated prefix is returned, which never happens
for the canonical fuel. -/
def compileAux (bytecode : List Nat) : Nat → Nat → List Operation →
    Except ParserError (List Operation)
  | 0, _, acc => .ok acc.reverse
  | fuel + 1, pc, acc =>
    match next_operation bytecode pc with
    | .error e => .error e
    | .ok none => .ok acc.reverse
    | .ok (some (op, pc')) => compileAux bytecode fuel pc' (op :: acc)

/-- `BytecodeParser::compile` from a fresh parser (`pc = 0`). -/
def compile (bytecode : List Nat) : Except ParserError (List Operation) :=
  compileAux bytecode (bytecode.length + 1) 0 []

/-! ## VM data model (`src/evm/evm.rs`) -/

/-- `MAX_STACK_SIZE`. -/
def MAX_STACK_SIZE : Nat := 1024

inductive StorageChangeType where
  | Set
  | Delete
deriving DecidableEq

/-- `VMError`.  `Panic` additionally models a Rust `panic!` (the
unimplemented-opcode arms, out-of-range slice indexing and integer
conversion); the `NotEnoughItemsOnStack` payload carries the operation
instead of its Debug-formatted name. -/
inductive VMError where
  | StackFull
  | NotEnoughItemsOnStack (op : Operation)
  | NoItemsOnStack
  | NotImplemented
  | ContractNotFound
  | InvalidTransaction
  | InvalidBytecode
  | OutOfGas
  | StackUnderflow
  | NoOperationExecuted
  | Panic

/-- `ExecutionResult`. -/
inductive ExecutionResult where
  | Success (return_data : Option (List Nat)) (gas_used : Nat)
  | Revert (reason : List Nat) (gas_used : Nat)

/-- The fields of `VM` relevant to execution: the contract's code and
storage (`Contract`), the `ExecutionContext` fields, and the frame.
The stack is kept top-first (the source's `Vec` keeps the top at the
end, so the source's `stack[len − n]` is index `n − 1` here).  The
`storage_revert` journal is an association list keyed by the storage
key, as is the contract `storage`. -/
structure VMState where
  stack : List Nat
  memory : List Nat
  code : List Nat
  storage : List (Nat × Nat)
  gas_available : Nat
  context_caller : Nat
  context_address : Nat
  context_value : Nat
  context_data : List Nat
  pc : Nat
  storage_revert : List (Nat × StorageChangeType × Nat)

/-- `U256::to::<usize>()`: panics when the value does not fit `usize`. -/
def toUsize (v : Nat) : Except VMError Nat :=
  if v < 2 ^ 64 then .ok v else .error .Panic

/-- `Vec::resize(new_len, 0)`. -/
def listResize (l : List Nat) (new_len : Nat) : List Nat :=
  l.take new_len ++ List.replicate (new_len - l.length) 0

/-- Write `bytes` into `mem` starting at `offset`
(`memory[offset..offset+len].copy_from_slice`); callers establish
`offset + bytes.length ≤ mem.length`. -/
def writeSlice (mem : List Nat) (offset : Nat) (bytes : List Nat) : List Nat :=
  mem.take offset ++ bytes ++ mem.drop (offset + bytes.length)

/-- `U256::to_be_bytes::<32>()`. -/
def beBytes32 (value : Nat) : List Nat :=
  (List.range 32).map (fun i => value / 256 ^ (31 - i) % 256)

/-- `VM::calc_memory_expansion_gas`. -/
def calc_memory_expansion_gas (memory_byte_size : Nat) : Nat :=
  let memory_size_word := (memory_byte_size + 31) / 32
  memory_size_word * memory_size_word / 512 + 3 * memory_size_word

/-- `VM::expand_memory`.  Note the source computes the charge from
`offset + 32` (not from `offset + required_size`) and only expands when
the charge is strictly below `gas_available`. -/
def expand_memory (st : VMState) (offset required_size : Nat) : Except VMError VMState :=
  let new_size := offset + required_size
  if st.memory.length < new_size then
    if calc_memory_expansion_gas (offset + 32) < st.gas_available then
      .ok { st with memory := listResize st.memory new_size }
    else
      .error .OutOfGas
  else
    .ok st

/-- `VM::load_into_memory`. -/
def load_into_memory (st : VMState) (offset value : Nat) : Except VMError VMState :=
  let bytes := beBytes32 value
  match expand_memory st offset 32 with
  | .error e => .error e
  | .ok st1 => .ok { st1 with memory := writeSlice st1.memory offset bytes }

/-- `VM::read_from_memory` (resizes, then returns the slice). -/
def read_from_memory (st : VMState) (offset length : Nat) : VMState × List Nat :=
  let st1 :=
    if st.memory.length < offset + length then
      { st with memory := listResize st.memory (offset + length) }
    else st
  (st1, (st1.memory.drop offset).take length)

/-- `VM::revert_storage`: applies every journal entry (each key occurs
at most once, so entries commute and the `HashMap` iteration order of
the source is immaterial), then clears the journal.  A `Set` entry
writes the prior value back only when the key is still present
(`get_mut`); a `Delete` entry removes the key. -/
def revert_storage (st : VMState) : VMState :=
  { st with
    storage := st.storage_revert.foldl
      (fun storage e =>
        match e.2.1 with
        | .Set => if (mapLookup storage e.1).isSome then mapInsert storage e.1 e.2.2 else storage
        | .Delete => mapRemove storage e.1)
      st.storage
    storage_revert := [] }

/-- `VM::push`. -/
def vm_push (st : VMState) (value : Nat) : Except VMError VMState :=
  if st.stack.length ≥ MAX_STACK_SIZE then .error .StackFull
  else .ok { st with stack := value :: st.stack }

/-- `VM::pop`. -/
def vm_pop (st : VMState) : Except VMError (Nat × VMState) :=
  match st.stack with
  | [] => .error .NoItemsOnStack
  | v :: rest => .ok (v, { st with stack := rest })

/-- `VM::add`: `a + b` on `U256` (reduces modulo `2^256`). -/
def vm_add (st : VMState) : Except VMError VMState :=
  match vm_pop st with
  | .error e => .error e
  | .ok (a, st1) =>
    match vm_pop st1 with
    | .error e => .error e
    | .ok (b, st2) => vm_push st2 ((a + b) % U256_MOD)

/-- `U256::from_be_slice`: big-endian bytes to a number. -/
def beNat (bytes : List Nat) : Nat :=
  bytes.foldl (fun v b => v * 256 + b) 0

/-- The byte-copy loop of the `CodeCopy` arm: for `i in 0..size`,
`memory[dest_offset + i] = code[offset + i]`, zero for out-of-bounds
code indices.  The successful `expand_memory` call before it
establishes `dest_offset + size ≤ memory.length`, so `List.set` is
always in bounds. -/
def code_copy_write (mem code : List Nat) (dest_offset offset size : Nat) : List Nat :=
  (List.range size).foldl
    (fun m i =>
      m.set (dest_offset + i)
        (if offset + i < code.length then code.getD (offset + i) 0 else 0))
    mem

/-- The `match operation` body of `VM::process_operation`, entered after
the stack-height and base-gas preconditions.  Every arm that the source
leaves as `panic!("… is not implemented")` is `.error .Panic`; every
normal arm ends in the shared
`Ok(Success { return_data: None, gas_used: gas_cost.base })`. -/
def process_op_inner (st : VMState) (op : Operation) : Except VMError (VMState × ExecutionResult) :=
  let base := op.gas_cost.base
  match op with
  | .Add =>
    match vm_add st with
    | .error e => .error e
    | .ok st1 => .ok (st1, .Success none base)
  | .IsZero =>
    match vm_pop st with
    | .error e => .error e
    | .ok (item, st1) =>
      match vm_push st1 (if item = 0 then 1 else 0) with
      | .error e => .error e
      | .ok st2 => .ok (st2, .Success none base)
  | .Address =>
    match vm_push st st.context_address with
    | .error e => .error e
    | .ok st1 => .ok (st1, .Success none base)
  | .Origin =>
    match vm_push st st.context_caller with
    | .error e => .error e
    | .ok st1 => .ok (st1, .Success none base)
  | .CallValue =>
    match vm_push st st.context_value with
    | .error e => .error e
    | .ok st1 => .ok (st1, .Success none base)
  | .CallDataLoad =>
    match vm_pop st with
    | .error e => .error e
    | .ok (iv, st1) =>
      match toUsize iv with
      | .error e => .error e
      | .ok i =>
        if i < st1.context_data.length then
          if st1.context_data.length - i < 32 then
            .error .Panic
          else
            match vm_push st1 (beNat ((st1.context_data.drop i).take 32)) with
            | .error e => .error e
            | .ok st2 => .ok (st2, .Success none base)
        else
          match vm_push st1 0 with
          | .error e => .error e
          | .ok st2 => .ok (st2, .Success none base)
  | .CallDataSize =>
    match vm_push st st.context_data.length with
    | .error e => .error e
    | .ok st1 => .ok (st1, .Success none base)
  | .CodeSize =>
    match vm_push st st.code.length with
    | .error e => .error e
    | .ok st1 => .ok (st1, .Success none base)
  | .CodeCopy =>
    match vm_pop st with
    | .error e => .error e
    | .ok (dv, st1) =>
      match toUsize dv with
      | .error e => .error e
      | .ok dest_offset =>
        match vm_pop st1 with
        | .error e => .error e
        | .ok (ov, st2) =>
          match toUsize ov with
          | .error e => .error e
          | .ok offset =>
            match vm_pop st2 with
            | .error e => .error e
            | .ok (sv, st3) =>
              match toUsize sv with
              | .error e => .error e
              | .ok size =>
                let minimum_word_size := (size + 31) / 32
                let static_gas := 3
                let dynamic_gas := 3 * minimum_word_size + calc_memory_expansion_gas size
                if st3.gas_available < static_gas + dynamic_gas then
                  .error .OutOfGas
                else
                  let st4 := { st3 with
                    gas_available := st3.gas_available - (static_gas + dynamic_gas) }
                  match expand_memory st4 dest_offset size with
                  | .error e => .error e
                  | .ok st5 =>
                    .ok ({ st5 with
                      memory := code_copy_write st5.memory st5.code dest_offset offset size },
                      .Success none base)
  | .Pop =>
    match vm_pop st with
    | .error e => .error e
    | .ok (_, st1) => .ok (st1, .Success none base)
  | .MStore =>
    match vm_pop st with
    | .error e => .error e
    | .ok (ov, st1) =>
      match toUsize ov with
      | .error e => .error e
      | .ok offset =>
        match vm_pop st1 with
        | .error e => .error e
        | .ok (value, st2) =>
          match load_into_memory st2 offset value with
          | .error e => .error e
          | .ok st3 => .ok (st3, .Success none base)
  | .SLoad =>
    match vm_pop st with
    | .error e => .error e
    | .ok (key, st1) =>
      match vm_push st1 ((mapLookup st1.storage key).getD 0) with
      | .error e => .error e
      | .ok st2 => .ok (st2, .Success none base)
  | .SStore =>
    match vm_pop st with
    | .error e => .error e
    | .ok (storage_key, st1) =>
      match vm_pop st1 with
      | .error e => .error e
      | .ok (storage_value, st2) =>
        let prev_value := mapLookup st2.storage storage_key
        let st3 := { st2 with storage := mapInsert st2.storage storage_key storage_value }
        match prev_value with
        | none =>
          let st4 := { st3 with
            storage_revert := mapInsert st3.storage_revert storage_key (.Delete, storage_value) }
          .ok (st4, .Success none base)
        | some prev =>
          let st4 := { st3 with
            storage_revert := mapInsert st3.storage_revert storage_key (.Set, prev) }
          .ok (st4, .Success none base)
  | .JumpI =>
    match vm_pop st with
    | .error e => .error e
    | .ok (ov, st1) =>
      match toUsize ov with
      | .error e => .error e
      | .ok offset =>
        match vm_pop st1 with
        | .error e => .error e
        | .ok (jump, st2) =>
          if jump ≠ 0 then
            if offset = 0 then .error .Panic
            else .ok ({ st2 with pc := offset - 1 }, .Success none base)
          else .ok (st2, .Success none base)
  | .JumpDest => .ok (st, .Success none base)
  | .Push0 =>
    match vm_push st 0 with
    | .error e => .error e
    | .ok st1 => .ok (st1, .Success none base)
  | .Push _ value =>
    match vm_push st value with
    | .error e => .error e
    | .ok st1 => .ok (st1, .Success none base)
  | .Dup item_num =>
    if item_num = 0 ∨ item_num > st.stack.length then
      .error .StackUnderflow
    else
      .ok ({ st with stack := st.stack.getD (item_num - 1) 0 :: st.stack },
        .Success none base)
  | .Return =>
    match vm_pop st with
    | .error e => .error e
    | .ok (sv, st1) =>
      match toUsize sv with
      | .error e => .error e
      | .ok size =>
        match vm_pop st1 with
        | .error e => .error e
        | .ok (ov, st2) =>
          match toUsize ov with
          | .error e => .error e
          | .ok offset =>
            let r := read_from_memory st2 offset size
            .ok (r.1, .Success (some r.2) base)
  | .Revert =>
    match vm_pop st with
    | .error e => .error e
    | .ok (lv, st1) =>
      match toUsize lv with
      | .error e => .error e
      | .ok length =>
        match vm_pop st1 with
        | .error e => .error e
        | .ok (ov, st2) =>
          match toUsize ov with
          | .error e => .error e
          | .ok offset =>
            let st3 := revert_storage st2
            let r := read_from_memory st3 offset length
            .ok (r.1, .Revert r.2 base)
  | _ => .error .Panic

/-- `VM::process_operation`: the stack-height precondition, the base-gas
precondition (the base cost is only compared, never deducted), then the
operation dispatch. -/
def process_operation (st : VMState) (op : Operation) : Except VMError (VMState × ExecutionResult) :=
  if st.stack.length < op.stack_req.min_stack_height then
    .error (.NotEnoughItemsOnStack op)
  else if st.gas_available < op.gas_cost.base then
    .error .OutOfGas
  else
    process_op_inner st op

/-- Outcome of the `while self.pc < operations.len()` loop of
`VM::execute_operations`, with fuel to bound the (possibly
non-terminating, via `JumpI`) iteration. -/
inductive LoopResult where
  | done (st : VMState) (res : Option ExecutionResult)
  | failed (e : VMError)
  | fuelExhausted

/-- The loop of `VM::execute_operations`: while `pc < operations.len()`,
run `process_operation(operations[pc])`, remember its result, increment
`pc`.  The loop never breaks on a `Return`/`Revert` result: it keeps
executing and a later operation overwrites `execution_result`. -/
def runOps (operations : List Operation) : Nat → VMState → Option ExecutionResult → LoopResult
  | 0, st, res => if st.pc < operations.length then .fuelExhausted else .done st res
  | fuel + 1, st, res =>
    if st.pc < operations.length then
      match process_operation st (operations.getD st.pc .Stop) with
      | .error e => .failed e
      | .ok (st1, r) => runOps operations fuel { st1 with pc := st1.pc + 1 } (some r)
    else .done st res

/-- Outcome of `VM::execute_operations` (fuel-bounded). -/
inductive ExecOutcome where
  | ok (st : VMState) (r : ExecutionResult)
  | err (e : VMError)
  | fuelExhausted

/-- `VM::execute_operations`: compile the bytes (any parser error
becomes `InvalidBytecode`), run the loop from the current `pc`, and
report the last operation's result (`NoOperationExecuted` when the loop
body never ran). -/
def execute_operations (st : VMState) (code : List Nat) (fuel : Nat) : ExecOutcome :=
  match compile code with
  | .error _ => .err .InvalidBytecode
  | .ok operations =>
    match runOps operations fuel st none with
    | .done st1 (some r) => .ok st1 r
    | .done _ none => .err .NoOperationExecuted
    | .failed e => .err e
    | .fuelExhausted => .fuelExhausted

/-! ## Transaction (`src/transaction/transaction.rs`) and accounts
(`src/block/account.rs`) -/

/-- `TRANSACTION_GAS_COST`. -/
def TRANSACTION_GAS_COST : Nat := 21000

/-- `Transaction`.  Addresses are 160-bit numbers (`to = 0` is the zero
address).  The ECDSA machinery is abstracted: `sender` is the value of
`get_sender_address()` (recovery either yields an address or fails) and
`sig_valid` the value of `verify_signature()`. -/
structure Transaction where
  chain_id : Nat
  nonce : Nat
  max_priority_fee_per_gas : Nat
  max_fee_per_gas : Nat
  gas_limit : Nat
  «to» : Nat
  value : Nat
  input_data : List Nat
  sender : Option Nat
  sig_valid : Bool

/-- `Account` with its `Account::new(balance, code_hash, storage_root)`
field layout (`nonce = 0` on creation); the two `B256` digests are
modelled as numbers. -/
structure Account where
  nonce : Nat
  balance : Nat
  code_hash : Nat
  storage_root : Nat
deriving DecidableEq

/-! ## VM transaction entry points (`src/evm/evm.rs`) -/

/-- `VM::call_contract`: extracts the four-byte function selector
(panicking when `input_data` is shorter, as `&input_data[0..4]` does),
resets `pc`, clears the stack and the memory — and returns
`Success { return_data: None, gas_used: 0 }` without ever executing the
contract's bytecode. -/
def call_contract (st : VMState) (transaction : Transaction) :
    Except VMError (VMState × ExecutionResult) :=
  if transaction.input_data.length < 4 then .error .Panic
  else
    let st1 := { st with pc := 0, stack := [], memory := [] }
    .ok (st1, .Success none 0)

/-- `VM::execute_transaction`: dispatch on `transaction.«to».is_zero()`.
The creation path (`VM::call_contract_create`) derives the contract
address with `keccak256(rlp(sender, nonce))` — passed in as the
abstract `keccakAddress` — inserts a fresh account whose code hash is
the (abstract) `keccakHash` of the init code, repoints the context
address and runs `execute_operations` on the init code.  The call path
is `call_contract`. -/
def execute_transaction (keccakAddress : Nat → Nat → Nat) (keccakHash : List Nat → Nat)
    (fuel : Nat) (st : VMState) (accounts : List (Nat × Account))
    (transaction : Transaction) : ExecOutcome × List (Nat × Account) :=
  if transaction.«to» = 0 then
    match transaction.sender with
    | none => (.err .InvalidTransaction, accounts)
    | some sender =>
      let contract_address := keccakAddress sender transaction.nonce
      let st1 := { st with context_address := contract_address }
      let accounts1 := mapInsert accounts contract_address
        ⟨0, transaction.value, keccakHash transaction.input_data, 0⟩
      (execute_operations st1 transaction.input_data fuel, accounts1)
  else
    match call_contract st transaction with
    | .error e => (.err e, accounts)
    | .ok (st1, r) => (.ok st1 r, accounts)

/-! ## Transaction executor (`src/evm/executor.rs`) -/

/-- `TransactionError` (`src/transaction/errors.rs`), the kinds used by
`Executor::process_transaction`. -/
inductive TransactionError where
  | InvalidTransaction
  | SenderAccountDoesNotExist
  | MaximumGasFeeBelowBaseFee
  | InsufficientGas
  | InvalidSignature
  | InsufficientBalance
deriving DecidableEq

/-- The `accounts` map of the global `State` consulted by the executor. -/
structure ExecState where
  accounts : List (Nat × Account)
deriving DecidableEq

/-- `Executor::process_transaction`.  Returned as a pair so a failed
call still exhibits its (unchanged) state: every check precedes every
mutation in the source.  On success the sender entry is debited and its
nonce bumped in place (`get_mut`), then `entry(tx.to).or_insert(zero
account)` is credited — in that order, so a self-transfer credits the
already-debited entry. -/
def process_transaction (transaction : Transaction) (base_fee : Nat) (s : ExecState) :
    Except TransactionError Unit × ExecState :=
  match transaction.sender with
  | none => (.error .InvalidTransaction, s)
  | some sender_addr =>
    match mapLookup s.accounts sender_addr with
    | none => (.error .SenderAccountDoesNotExist, s)
    | some sender =>
      if base_fee > transaction.max_fee_per_gas then
        (.error .MaximumGasFeeBelowBaseFee, s)
      else
        let total_fee := TRANSACTION_GAS_COST *
          min transaction.max_fee_per_gas (base_fee + transaction.max_priority_fee_per_gas)
        if transaction.gas_limit < TRANSACTION_GAS_COST then
          (.error .InsufficientGas, s)
        else if !transaction.sig_valid then
          (.error .InvalidSignature, s)
        else if sender.balance < transaction.value + total_fee then
          (.error .InsufficientBalance, s)
        else
          let sender1 := { sender with
            balance := sender.balance - (transaction.value + total_fee)
            nonce := sender.nonce + 1 }
          let accounts1 := mapInsert s.accounts sender_addr sender1
          let recipient := (mapLookup accounts1 transaction.«to»).getD ⟨0, 0, 0, 0⟩
          let recipient1 := { recipient with balance := recipient.balance + transaction.value }
          (.ok (), ⟨mapInsert accounts1 transaction.«to» recipient1⟩)

/-- `VM::new(contract, context, state)`: fresh stack/memory/pc and empty
journal, `gas_available` from the context.  (The `creation_offset`
computed there is never read by any function modelled here and is
omitted.) -/
def VM_new (code : List Nat) (storage : List (Nat × Nat)) (caller address value : Nat)
    (data : List Nat) (gas : Nat) : VMState :=
  ⟨[], [], code, storage, gas, caller, address, value, data, 0, []⟩

/-! ## Theorems settling the claims -/

/-- C1 (code bug): the program
`[PUSH1 1, PUSH1 0, SSTORE, PUSH1 2, PUSH1 0, SSTORE, PUSH1 0, PUSH1 0, REVERT]`
writes slot `0` twice (the slot was absent before the execution) and
then reverts.  Because `SStore` journals with `HashMap::insert`, the
second write replaces the first `(Delete, …)` entry with
`(Set, first-written-value)`, so the revert leaves `storage = [(0, 1)]`
instead of deleting the slot: the claim that every slot returns to its
pre-first-`SStore` state — in particular under two writes to the same
key — is violated by the code. -/
theorem C1_revert_keeps_overwritten_slot :
    runOps [.Push 1 1, .Push 1 0, .SStore, .Push 1 2, .Push 1 0, .SStore,
        .Push 1 0, .Push 1 0, .Revert] 9
      (VM_new [] [] 0 0 0 [] 6000) none
      = .done { VM_new [] [] 0 0 0 [] 6000 with pc := 9, storage := [(0, 1)] }
          (some (.Revert [] 3)) := rfl

/-- C2 (code bug): a transaction with non-zero `to` against a contract
whose code is `[PUSH1 42, PUSH1 0, SSTORE]` returns
`Success { return_data: None, gas_used: 0 }` with the contract storage
untouched: `call_contract` extracts the selector, resets the frame and
returns without ever running the bytecode, contradicting the claim
(and the repository's own `test_contract_basics`). -/
theorem C2_call_path_never_executes_bytecode :
    execute_transaction (fun _ _ => 0) (fun _ => 0) 10
      (VM_new [0x60, 0x2a, 0x60, 0x00, 0x55] [] 0 1 0 [0, 0, 0, 0] 100000) []
      ⟨0, 0, 0, 0, 21000, 1, 0, [0, 0, 0, 0], some 9, true⟩
      = (.ok { VM_new [0x60, 0x2a, 0x60, 0x00, 0x55] [] 0 1 0 [0, 0, 0, 0] 100000 with
            pc := 0, stack := [], memory := [] } (.Success none 0), []) := rfl

/-- C3 (code bug): running `[PUSH1 0, PUSH1 0, RETURN, PUSH1 5]`, the
loop of `execute_operations` does not stop at `Return`: the final
`PUSH1 5` still executes (the final stack is `[5]`) and the reported
result is that of the `PUSH1 5`, `Success { return_data: None }`, not
the `Return`'s `Success { return_data: Some [] }` — contradicting the
claim that no operation after a terminating one affects the machine
state. -/
theorem C3_operations_after_return_still_execute :
    runOps [.Push 1 0, .Push 1 0, .Return, .Push 1 5] 4
      (VM_new [] [] 0 0 0 [] 6000) none
      = .done { VM_new [] [] 0 0 0 [] 6000 with pc := 4, stack := [5] }
          (some (.Success none 3)) := rfl

set_option maxRecDepth 100000 in
/-- C7 (code bug): `Dup(1)` on a stack holding exactly 1024 entries
succeeds and grows the stack to 1025 entries — the `Dup` arm pushes
with a raw `stack.push`, bypassing `VM::push` and its `StackFull`
guard, violating the 1024-entry bound. -/
theorem C7_dup_overflows_stack_bound :
    process_operation { VM_new [] [] 0 0 0 [] 10 with stack := List.replicate 1024 7 } (.Dup 1)
        = .ok ({ VM_new [] [] 0 0 0 [] 10 with stack := 7 :: List.replicate 1024 7 },
            .Success none 3)
      ∧ (7 :: List.replicate 1024 7).length = 1024 + 1 := ⟨rfl, by simp⟩

/-- C5 counterexample: decoding and running `[PUSH1 1, PUSH1 1, ADD]`
with gas 100 ends with stack `[2]` but reports `gas_used = 3` — the
base cost of the final `Add` only — not the claimed total `9`. -/
theorem C5_gas_used_is_last_op_cost :
    execute_operations (VM_new [] [] 0 0 0 [] 100) [0x60, 0x01, 0x60, 0x01, 0x01] 3
        = .ok { VM_new [] [] 0 0 0 [] 100 with pc := 3, stack := [2] } (.Success none 3)
      ∧ (3 : Nat) ≠ 9 := ⟨rfl, by decide⟩

/-- C9 counterexample: expanding empty memory to 64 bytes
(`offset = 0`, `required_size = 64`) with `gas_available = 5` succeeds,
although the claim's charge — `memory_cost` of the new word count
`ceil(64/32) = 2`, namely `6` — exceeds the available gas: the source
computes the charge from `offset + 32`, not from the required bytes. -/
theorem C9_expand_memory_undercharges :
    expand_memory { VM_new [] [] 0 0 0 [] 5 with memory := [] } 0 64
        = .ok { VM_new [] [] 0 0 0 [] 5 with memory := List.replicate 64 0 }
      ∧ 5 < calc_memory_expansion_gas 64 := ⟨rfl, by decide⟩

theorem vm_push_gas {st st1 : VMState} {v : Nat} (h : vm_push st v = .ok st1) :
    st1.gas_available = st.gas_available := by
  unfold vm_push at h
  split at h
  · exact Except.noConfusion h
  · cases h
    rfl

theorem vm_pop_gas {st st1 : VMState} {v : Nat} (h : vm_pop st = .ok (v, st1)) :
    st1.gas_available = st.gas_available := by
  unfold vm_pop at h
  split at h
  · exact Except.noConfusion h
  · cases h
    rfl

theorem vm_add_gas {st st1 : VMState} (h : vm_add st = .ok st1) :
    st1.gas_available = st.gas_available := by
  unfold vm_add at h
  split at h
  · exact Except.noConfusion h
  next a stA heqA =>
    split at h
    · exact Except.noConfusion h
    next b stB heqB =>
      rw [vm_push_gas h, vm_pop_gas heqB, vm_pop_gas heqA]

theorem expand_memory_gas {st st1 : VMState} {o r : Nat} (h : expand_memory st o r = .ok st1) :
    st1.gas_available = st.gas_available := by
  simp only [expand_memory] at h
  repeat' split at h
  all_goals first
    | exact Except.noConfusion h
    | (injection h with h1; subst h1; rfl)

theorem load_into_memory_gas {st st1 : VMState} {o v : Nat}
    (h : load_into_memory st o v = .ok st1) : st1.gas_available = st.gas_available := by
  unfold load_into_memory at h
  split at h
  · exact Except.noConfusion h
  next stA heqA =>
    injection h with h1
    subst h1
    show stA.gas_available = st.gas_available
    exact expand_memory_gas heqA

theorem read_from_memory_gas (st : VMState) (o l : Nat) :
    (read_from_memory st o l).1.gas_available = st.gas_available := by
  unfold read_from_memory
  dsimp only
  split <;> rfl

theorem revert_storage_gas (st : VMState) :
    (revert_storage st).gas_available = st.gas_available := rfl

/-- C10: for every operation other than `CodeCopy`, a successful
`process_operation` leaves `gas_available` unchanged — the base cost is
only compared against the gas meter, never deducted; `CodeCopy` is the
sole operation that decreases `gas_available`. -/
theorem C10_only_codecopy_spends_gas (st : VMState) (op : Operation) (st1 : VMState)
    (r : ExecutionResult) (hop : op ≠ .CodeCopy)
    (h : process_operation st op = .ok (st1, r)) :
    st1.gas_available = st.gas_available := by
  unfold process_operation at h
  split at h
  · exact Except.noConfusion h
  split at h
  · exact Except.noConfusion h
  cases op
  all_goals try exact absurd rfl hop
  all_goals try exact Except.noConfusion (by simpa only [process_op_inner] using h)
  case Add =>
    simp only [process_op_inner] at h
    split at h
    · exact Except.noConfusion h
    next stA heqA =>
      injection h with h1
      cases h1
      exact vm_add_gas heqA
  case IsZero =>
    simp only [process_op_inner] at h
    split at h
    · exact Except.noConfusion h
    next item stA heqA =>
      split at h
      · exact Except.noConfusion h
      next stB heqB =>
        injection h with h1
        cases h1
        exact (vm_push_gas heqB).trans (vm_pop_gas heqA)
  case Address =>
    simp only [process_op_inner] at h
    split at h
    · exact Except.noConfusion h
    next stA heqA =>
      injection h with h1
      cases h1
      exact vm_push_gas heqA
  case Origin =>
    simp only [process_op_inner] at h
    split at h
    · exact Except.noConfusion h
    next stA heqA =>
      injection h with h1
      cases h1
      exact vm_push_gas heqA
  case CallValue =>
    simp only [process_op_inner] at h
    split at h
    · exact Except.noConfusion h
    next stA heqA =>
      injection h with h1
      cases h1
      exact vm_push_gas heqA
  case CallDataLoad =>
    simp only [process_op_inner] at h
    split at h
    · exact Except.noConfusion h
    next iv stA heqA =>
      split at h
      · exact Except.noConfusion h
      next i heqI =>
        split at h
        · split at h
          · exact Except.noConfusion h
          · split at h
            · exact Except.noConfusion h
            next stB heqB =>
              injection h with h1
              cases h1
              exact (vm_push_gas heqB).trans (vm_pop_gas heqA)
        · split at h
          · exact Except.noConfusion h
          next stB heqB =>
            injection h with h1
            cases h1
            exact (vm_push_gas heqB).trans (vm_pop_gas heqA)
  case CallDataSize =>
    simp only [process_op_inner] at h
    split at h
    · exact Except.noConfusion h
    next stA heqA =>
      injection h with h1
      cases h1
      exact vm_push_gas heqA
  case CodeSize =>
    simp only [process_op_inner] at h
    split at h
    · exact Except.noConfusion h
    next stA heqA =>
      injection h with h1
      cases h1
      exact vm_push_gas heqA
  case Pop =>
    simp only [process_op_inner] at h
    split at h
    · exact Except.noConfusion h
    next v stA heqA =>
      injection h with h1
      cases h1
      exact vm_pop_gas heqA
  case MStore =>
    simp only [process_op_inner] at h
    split at h
    · exact Except.noConfusion h
    next ov stA heqA =>
      split at h
      · exact Except.noConfusion h
      next o heqO =>
        split at h
        · exact Except.noConfusion h
        next v stB heqB =>
          split at h
          · exact Except.noConfusion h
          next stC heqC =>
            injection h with h1
            cases h1
            exact ((load_into_memory_gas heqC).trans (vm_pop_gas heqB)).trans (vm_pop_gas heqA)
  case SLoad =>
    simp only [process_op_inner] at h
    split at h
    · exact Except.noConfusion h
    next key stA heqA =>
      split at h
      · exact Except.noConfusion h
      next stB heqB =>
        injection h with h1
        cases h1
        exact (vm_push_gas heqB).trans (vm_pop_gas heqA)
  case SStore =>
    simp only [process_op_inner] at h
    split at h
    · exact Except.noConfusion h
    next k stA heqA =>
      split at h
      · exact Except.noConfusion h
      next v stB heqB =>
        split at h
        · injection h with h1
          cases h1
          exact (vm_pop_gas heqB).trans (vm_pop_gas heqA)
        · injection h with h1
          cases h1
          exact (vm_pop_gas heqB).trans (vm_pop_gas heqA)
  case JumpI =>
    simp only [process_op_inner] at h
    split at h
    · exact Except.noConfusion h
    next ov stA heqA =>
      split at h
      · exact Except.noConfusion h
      next o heqO =>
        split at h
        · exact Except.noConfusion h
        next j stB heqB =>
          split at h
          · split at h
            · exact Except.noConfusion h
            · injection h with h1
              cases h1
              exact (vm_pop_gas heqB).trans (vm_pop_gas heqA)
          · injection h with h1
            cases h1
            exact (vm_pop_gas heqB).trans (vm_pop_gas heqA)
  case JumpDest =>
    simp only [process_op_inner] at h
    injection h with h1
    cases h1
    rfl
  case Push0 =>
    simp only [process_op_inner] at h
    split at h
    · exact Except.noConfusion h
    next stA heqA =>
      injection h with h1
      cases h1
      exact vm_push_gas heqA
  case Push =>
    simp only [process_op_inner] at h
    split at h
    · exact Except.noConfusion h
    next stA heqA =>
      injection h with h1
      cases h1
      exact vm_push_gas heqA
  case Dup =>
    simp only [process_op_inner] at h
    split at h
    · exact Except.noConfusion h
    · injection h with h1
      cases h1
      rfl
  case Return =>
    simp only [process_op_inner] at h
    split at h
    · exact Except.noConfusion h
    next sv stA heqA =>
      split at h
      · exact Except.noConfusion h
      next sz heqS =>
        split at h
        · exact Except.noConfusion h
        next ov stB heqB =>
          split at h
          · exact Except.noConfusion h
          next o heqO =>
            injection h with h1
            cases h1
            exact ((read_from_memory_gas stB o sz).trans (vm_pop_gas heqB)).trans (vm_pop_gas heqA)
  case Revert =>
    simp only [process_op_inner] at h
    split at h
    · exact Except.noConfusion h
    next lv stA heqA =>
      split at h
      · exact Except.noConfusion h
      next l heqL =>
        split at h
        · exact Except.noConfusion h
        next ov stB heqB =>
          split at h
          · exact Except.noConfusion h
          next o heqO =>
            injection h with h1
            cases h1
            exact (((read_from_memory_gas (revert_storage stB) o l).trans
              (revert_storage_gas stB)).trans (vm_pop_gas heqB)).trans (vm_pop_gas heqA)

/-- C10 witness: a concrete `Pop` (not `CodeCopy`) succeeds and leaves
`gas_available` untouched. -/
theorem C10_only_codecopy_spends_gas_witness :
    process_operation { VM_new [] [] 0 0 0 [] 42 with stack := [5] } .Pop
        = .ok ({ VM_new [] [] 0 0 0 [] 42 with stack := [] }, .Success none 3)
      ∧ ({ VM_new [] [] 0 0 0 [] 42 with stack := [] } : VMState).gas_available
        = ({ VM_new [] [] 0 0 0 [] 42 with stack := [5] } : VMState).gas_available :=
  ⟨rfl, C10_only_codecopy_spends_gas _ .Pop _ (.Success none 3)
    (fun hx => Operation.noConfusion hx) rfl⟩

/-- C6: whenever `Executor::process_transaction` returns an error, the
account state is unchanged — every check precedes every mutation. -/
theorem C6_failed_transaction_preserves_state (tx : Transaction) (base_fee : Nat)
    (s : ExecState) (e : TransactionError)
    (h : (process_transaction tx base_fee s).1 = .error e) :
    (process_transaction tx base_fee s).2 = s := by
  rcases hs : tx.sender with _ | sender_addr
  · simp [process_transaction, hs]
  · rcases hl : mapLookup s.accounts sender_addr with _ | sender
    · simp [process_transaction, hs, hl]
    · simp only [process_transaction, hs, hl] at h ⊢
      split_ifs at h ⊢ <;> rfl

/-- C6 witness: a transaction whose sender recovery failed errors with
`InvalidTransaction` and leaves the state untouched. -/
theorem C6_failed_transaction_preserves_state_witness :
    (process_transaction ⟨0, 0, 0, 0, 21000, 2, 5, [], none, true⟩ 0
        ⟨[(1, ⟨0, 100, 0, 0⟩)]⟩).1 = .error .InvalidTransaction
      ∧ (process_transaction ⟨0, 0, 0, 0, 21000, 2, 5, [], none, true⟩ 0
        ⟨[(1, ⟨0, 100, 0, 0⟩)]⟩).2 = ⟨[(1, ⟨0, 100, 0, 0⟩)]⟩ :=
  ⟨rfl, C6_failed_transaction_preserves_state _ 0 _ .InvalidTransaction rfl⟩

/-- C4 counterexample: a successful self-transfer (`to` equals the
recovered sender, `value = 5`, all fee inputs zero so the fee is zero)
leaves the sender/recipient balance at `100`, not decreased by
`value + fee = 5`: the recipient credit is applied to the already
debited entry. -/
theorem C4_self_transfer_not_debited :
    (process_transaction ⟨0, 0, 0, 0, 21000, 1, 5, [], some 1, true⟩ 0
        ⟨[(1, ⟨0, 100, 0, 0⟩)]⟩).1 = .ok ()
      ∧ mapLookup (process_transaction ⟨0, 0, 0, 0, 21000, 1, 5, [], some 1, true⟩ 0
          ⟨[(1, ⟨0, 100, 0, 0⟩)]⟩).2.accounts 1 = some ⟨1, 100, 0, 0⟩
      ∧ (100 : Nat) ≠ 100 - (5 + TRANSACTION_GAS_COST * min 0 (0 + 0)) :=
  ⟨rfl, rfl, by decide⟩

/-- C4 amended: for a successful `process_transaction` whose recipient
differs from the recovered sender: the sender's nonce is bumped by one
and its balance debited by exactly
`value + 21000 · min(max_fee, base_fee + max_priority_fee)` (which the
success guarantees fits), and the recipient's balance is credited by
exactly `value` on the account that existed before (or a fresh zero
account).  For a self-transfer the net sender change is only the fee
(see the counterexample). -/
theorem C4_transfer_effects (tx : Transaction) (base_fee : Nat) (s : ExecState)
    (a : Nat) (acc : Account)
    (hs : tx.sender = some a) (hacc : mapLookup s.accounts a = some acc)
    (hne : tx.«to» ≠ a)
    (hok : (process_transaction tx base_fee s).1 = .ok ()) :
    tx.value + TRANSACTION_GAS_COST
        * min tx.max_fee_per_gas (base_fee + tx.max_priority_fee_per_gas) ≤ acc.balance
    ∧ mapLookup (process_transaction tx base_fee s).2.accounts a
        = some { acc with
            balance := acc.balance - (tx.value + TRANSACTION_GAS_COST
              * min tx.max_fee_per_gas (base_fee + tx.max_priority_fee_per_gas))
            nonce := acc.nonce + 1 }
    ∧ (mapLookup (process_transaction tx base_fee s).2.accounts tx.«to»).map Account.balance
        = some (((mapLookup s.accounts tx.«to»).map Account.balance).getD 0 + tx.value) := by
  have hne' : a ≠ tx.«to» := fun hh => hne hh.symm
  simp only [process_transaction, hs, hacc] at hok ⊢
  split_ifs at hok ⊢ with h1 h2 h3 h4
  dsimp only at hok ⊢
  refine ⟨by omega, ?_, ?_⟩
  · rw [mapLookup_mapInsert_ne _ _ _ _ hne', mapLookup_mapInsert_self]
  · rw [mapLookup_mapInsert_self, mapLookup_mapInsert_ne _ _ _ _ hne]
    cases hto : mapLookup s.accounts tx.«to» <;> simp [hto]

/-- C4 witness: a concrete successful transfer from address 1 to
address 2 of value 5 with zero fee debits the sender to balance 95 and
nonce 1. -/
theorem C4_transfer_effects_witness :
    mapLookup (process_transaction ⟨0, 0, 0, 0, 21000, 2, 5, [], some 1, true⟩ 0
        ⟨[(1, ⟨0, 100, 0, 0⟩)]⟩).2.accounts 1 = some ⟨1, 95, 0, 0⟩ :=
  (C4_transfer_effects ⟨0, 0, 0, 0, 21000, 2, 5, [], some 1, true⟩ 0
    ⟨[(1, ⟨0, 100, 0, 0⟩)]⟩ 1 ⟨0, 100, 0, 0⟩ rfl rfl (by decide) rfl).2.1

/-- C5 amended: decoding and running `[PUSH1 1, PUSH1 1, ADD]` with any
sufficient gas (`g ≥ 3`) succeeds with final stack `[2]` and a reported
`gas_used` of `3` — the base cost of the final `Add`; per-operation
costs are never accumulated (the claimed total of `9` is not what the
code reports). -/
theorem C5_add_program_result (g : Nat) (hg : 3 ≤ g) :
    execute_operations (VM_new [] [] 0 0 0 [] g) [0x60, 0x01, 0x60, 0x01, 0x01] 3
      = .ok { VM_new [] [] 0 0 0 [] g with pc := 3, stack := [2] } (.Success none 3) := by
  have hcomp : compile [0x60, 0x01, 0x60, 0x01, 0x01] = .ok [.Push 1 1, .Push 1 1, .Add] := rfl
  have hg3 : ¬ (g < 3) := by omega
  unfold execute_operations
  rw [hcomp]
  simp [runOps, process_operation, process_op_inner, vm_push, vm_pop, vm_add,
    Operation.gas_cost, Operation.stack_req, MAX_STACK_SIZE, VM_new, hg3, U256_MOD]

/-- C5 witness: the amended statement at gas 100. -/
theorem C5_add_program_result_witness :
    (3 : Nat) ≤ 100
      ∧ execute_operations (VM_new [] [] 0 0 0 [] 100) [0x60, 0x01, 0x60, 0x01, 0x01] 3
        = .ok { VM_new [] [] 0 0 0 [] 100 with pc := 3, stack := [2] } (.Success none 3) :=
  ⟨by decide, C5_add_program_result 100 (by decide)⟩

/-- C9 amended: when a memory access needs more bytes than allocated,
the charge the source checks is `memory_cost` of the word count of
`offset + 32` bytes — independent of the required size — and the
expansion fails with `OutOfGas` exactly when that charge is `≥`
`gas_available` (not only when it exceeds it); otherwise memory grows
to `offset + required_size`. -/
theorem C9_expand_memory_charge (st : VMState) (offset required_size : Nat)
    (hneed : st.memory.length < offset + required_size) :
    (calc_memory_expansion_gas (offset + 32) < st.gas_available →
        expand_memory st offset required_size
          = .ok { st with memory := listResize st.memory (offset + required_size) })
    ∧ (st.gas_available ≤ calc_memory_expansion_gas (offset + 32) →
        expand_memory st offset required_size = .error .OutOfGas) := by
  constructor
  · intro hgas
    simp [expand_memory, hneed, hgas]
  · intro hgas
    have hnot : ¬ (calc_memory_expansion_gas (offset + 32) < st.gas_available) := by omega
    simp [expand_memory, hneed, hnot]

/-- C9 witness: the amended statement at empty memory, `offset = 0`,
`required_size = 32`, gas 4 (the charge is 3, so the access succeeds). -/
theorem C9_expand_memory_charge_witness :
    ((VM_new [] [] 0 0 0 [] 4).memory.length < 0 + 32)
      ∧ ((calc_memory_expansion_gas (0 + 32) < (VM_new [] [] 0 0 0 [] 4).gas_available →
            expand_memory (VM_new [] [] 0 0 0 [] 4) 0 32
              = .ok { VM_new [] [] 0 0 0 [] 4 with
                  memory := listResize (VM_new [] [] 0 0 0 [] 4).memory (0 + 32) })
          ∧ ((VM_new [] [] 0 0 0 [] 4).gas_available ≤ calc_memory_expansion_gas (0 + 32) →
            expand_memory (VM_new [] [] 0 0 0 [] 4) 0 32 = .error .OutOfGas)) :=
  ⟨by decide, C9_expand_memory_charge (VM_new [] [] 0 0 0 [] 4) 0 32 (by decide)⟩

/-- The big-endian accumulation loop of the decoder never wraps: with
at most 32 bytes, each below 256, the running value stays below
`2 ^ 256`, so the modulo in the `U256` shift-and-add is the identity. -/
theorem push_value_foldl (bs : List Nat) (k acc : Nat)
    (hb : ∀ b ∈ bs, b < 256) (hacc : acc < 256 ^ k) (hlen : k + bs.length ≤ 32) :
    bs.foldl (fun v b => (v * 256 + b) % U256_MOD) acc
      = bs.foldl (fun v b => v * 256 + b) acc := by
  induction bs generalizing k acc with
  | nil => rfl
  | cons b rest ih =>
    have hb0 : b < 256 := hb b (List.mem_cons_self _ _)
    have hlt : acc * 256 + b < 256 ^ (k + 1) := by
      have h1 : acc + 1 ≤ 256 ^ k := hacc
      have h2 : (acc + 1) * 256 ≤ 256 ^ k * 256 := Nat.mul_le_mul_right _ h1
      have hp : 256 ^ (k + 1) = 256 ^ k * 256 := by ring
      omega
    have hM : 256 ^ (k + 1) ≤ U256_MOD := by
      have h32 : k + 1 ≤ 32 := by
        simp only [List.length_cons] at hlen
        omega
      calc (256 : Nat) ^ (k + 1) ≤ 256 ^ 32 := Nat.pow_le_pow_right (by norm_num) h32
        _ = U256_MOD := by norm_num [U256_MOD]
    have hmod : (acc * 256 + b) % U256_MOD = acc * 256 + b :=
      Nat.mod_eq_of_lt (lt_of_lt_of_le hlt hM)
    simp only [List.foldl_cons, hmod]
    exact ih (k + 1) (acc * 256 + b)
      (fun x hx => hb x (List.mem_cons_of_mem _ hx)) hlt
      (by simp only [List.length_cons] at hlen; omega)

/-- `Operation::from_byte` on a push opcode with an immediate. -/
theorem from_byte_push (b v : Nat) (h1 : 0x60 ≤ b) (h2 : b ≤ 0x7f) :
    Operation.from_byte b (some v) = .ok (.Push (b - 0x60 + 1) v) := by
  have h31 : b - 0x60 ≤ 31 := by omega
  simp only [Operation.from_byte, if_pos (And.intro h1 h2)]
  simp [h31]

/-- C8: at any cursor position holding a push opcode
`b ∈ 0x60..=0x7f` of width `n = b − 0x5F`, the decoder yields
`Push n` carrying the next `n` bytes as a big-endian number (advancing
the cursor past them) when at least `n` bytes follow — in particular
when those are the last `n` bytes of the input — and fails with
`IncompletePush` exactly when fewer than `n` bytes remain. -/
theorem C8_incomplete_push_exact (bytecode : List Nat) (pc : Nat)
    (hpc : pc < bytecode.length)
    (hlo : 0x60 ≤ bytecode.getD pc 0) (hhi : bytecode.getD pc 0 ≤ 0x7f)
    (hbytes : ∀ b ∈ bytecode, b < 256) :
    (pc + (bytecode.getD pc 0 - 0x5f) < bytecode.length →
      next_operation bytecode pc
        = .ok (some (.Push (bytecode.getD pc 0 - 0x5f)
            (beNat ((bytecode.drop (pc + 1)).take (bytecode.getD pc 0 - 0x5f))),
            pc + (bytecode.getD pc 0 - 0x5f) + 1)))
    ∧ (bytecode.length ≤ pc + (bytecode.getD pc 0 - 0x5f) →
      next_operation bytecode pc = .error .IncompletePush) := by
  have h1 : ¬ (pc ≥ bytecode.length) := by omega
  have h2 : ¬ (bytecode.getD pc 0 = 0xfe) := by omega
  have h3 : 0x60 ≤ bytecode.getD pc 0 ∧ bytecode.getD pc 0 ≤ 0x7f := ⟨hlo, hhi⟩
  have hn : bytecode.getD pc 0 - 0x60 + 1 = bytecode.getD pc 0 - 0x5f := by omega
  constructor
  · intro hlt
    have h4 : ¬ (pc + (bytecode.getD pc 0 - 0x5f) ≥ bytecode.length) := by omega
    have hval : ((bytecode.drop (pc + 1)).take (bytecode.getD pc 0 - 0x5f)).foldl
        (fun v b => (v * 256 + b) % U256_MOD) 0
        = beNat ((bytecode.drop (pc + 1)).take (bytecode.getD pc 0 - 0x5f)) := by
      apply push_value_foldl _ 0 0
      · exact fun x hx =>
          hbytes x (List.drop_subset _ _ (List.take_subset _ _ hx))
      · norm_num
      · simp only [List.length_take, Nat.zero_add]
        have h32 : bytecode.getD pc 0 - 0x5f ≤ 32 := by omega
        omega
    simp only [next_operation, if_neg h1, if_neg h2, if_pos h3, hn, if_neg h4,
      from_byte_push _ _ hlo hhi, hval]
  · intro hge
    have h4 : pc + (bytecode.getD pc 0 - 0x5f) ≥ bytecode.length := by omega
    simp only [next_operation, if_neg h1, if_neg h2, if_pos h3, hn, if_pos h4]

/-- C8 witness: `[0x61, 0xAB, 0xCD]` — a `PUSH2` whose two immediate
bytes are the last two bytes of the input — decodes to
`Push 2 0xABCD`, and `[0x61, 0xAB]` fails with `IncompletePush`. -/
theorem C8_incomplete_push_exact_witness :
    next_operation [0x61, 0xab, 0xcd] 0 = .ok (some (.Push 2 (beNat [0xab, 0xcd]), 3))
      ∧ next_operation [0x61, 0xab] 0 = .error .IncompletePush :=
  ⟨(C8_incomplete_push_exact [0x61, 0xab, 0xcd] 0 (by decide) (by decide) (by decide)
      (by decide)).1 (by decide),
    (C8_incomplete_push_exact [0x61, 0xab] 0 (by decide) (by decide) (by decide)
      (by decide)).2 (by decide)⟩

end EvmRusty
